import Mathlib

/-!
Shallow embedding of `src/sample/simple.py` (bridgetech_utility): elevator log
entries, the log-entry collection with its date/floor filtering and splitting,
operation reconstruction (`ElevatorOperations.from_log_entries`), anomaly
detection and duration (`ElevatorOperation`), and the average/median statistics.

Modelling conventions:
* Timestamps (`datetime.datetime` parsed from "%Y-%m-%d %H:%M:%S") are whole
  seconds, modelled as `Nat`; the calendar date `x.date.date()` is modelled as
  the day index `t / 86400`.
* The `floor` field (`data` in the source, parsed with `int(...)` where used)
  is modelled as `Int`.
* The event `type` is a `String`, compared against the literal "button_call"
  exactly as the source does.
* Python `sorted(list, key=lambda x: x.date)` is a stable ascending sort; it is
  modelled by a stable insertion sort on the `date` key (stable sorts with the
  same key agree extensionally, and this one computes by kernel reduction).
* Python `set` values (`dates()`, `floors()`) are modelled as duplicate-free
  lists (`List.dedup`); iteration order over a Python set is unspecified, the
  dedup order stands in for it.
* `statistics.mean` / `statistics.median` raise `StatisticsError` on empty
  input; this is modelled with `Option`, and the `try/except` in
  `ElevatorOperations.average` / `median` turns the error into the sentinel -1.
  Their float results are modelled as exact rationals (`Rat`); `statistics.mean`
  computes an exact fraction internally.
-/

namespace Bridgetech

/-- Models `ElevatorLogEntry`: `id`, `device_id`, `floor` (the `data` column),
`type`, and the parsed timestamp `date` in whole seconds. -/
structure ElevatorLogEntry where
  id : Nat
  device_id : Nat
  floor : Int
  type : String
  date : Nat
deriving DecidableEq

/-- Models `x.date.date()`: the calendar day of a timestamp, as a day index. -/
def dateDay (e : ElevatorLogEntry) : Nat :=
  e.date / 86400

/-- Stable insertion of an entry into a date-sorted list: the new element goes
before the first element whose date is not strictly smaller.  Used to model
Python's stable `sorted(..., key=lambda x: x.date)`. -/
def insertByDate (e : ElevatorLogEntry) : List ElevatorLogEntry → List ElevatorLogEntry
  | [] => [e]
  | x :: xs => if x.date < e.date then x :: insertByDate e xs else e :: x :: xs

/-- Models `sorted(list, key=lambda x: x.date)`: stable ascending sort by
timestamp. -/
def sortByDate : List ElevatorLogEntry → List ElevatorLogEntry
  | [] => []
  | a :: rest => insertByDate a (sortByDate rest)

namespace ElevatorLogEntries

/-- Models `ElevatorLogEntries.__init__`: the backing list is the input sorted
ascending by timestamp (stable). -/
def init (l : List ElevatorLogEntry) : List ElevatorLogEntry :=
  sortByDate l

/-- Models `ElevatorLogEntries.dates`: the set of calendar dates of the
entries, as a duplicate-free list. -/
def dates (c : List ElevatorLogEntry) : List Nat :=
  (c.map dateDay).dedup

/-- Models `ElevatorLogEntries.floors`: the set of raw `floor` values of the
entries (no absolute value is taken here), as a duplicate-free list. -/
def floors (c : List ElevatorLogEntry) : List Int :=
  (c.map (fun e => e.floor)).dedup

/-- Models `ElevatorLogEntries.filter_date`: entries whose calendar day equals
`d`, wrapped in a new collection (hence re-sorted by the constructor). -/
def filter_date (c : List ElevatorLogEntry) (d : Nat) : List ElevatorLogEntry :=
  init (c.filter (fun x => dateDay x == d))

/-- Models `ElevatorLogEntries.filter_floor`: entries with
`abs(int(x.floor)) == int(floor)` — the absolute value is applied to the
entry's floor but not to the argument — wrapped in a new collection. -/
def filter_floor (c : List ElevatorLogEntry) (f : Int) : List ElevatorLogEntry :=
  init (c.filter (fun x => |x.floor| == f))

/-- Models `ElevatorLogEntries.split_by_date`: one key per element of
`dates()`, each mapped to `filter_date` of that key. -/
def split_by_date (c : List ElevatorLogEntry) : List (Nat × List ElevatorLogEntry) :=
  (dates c).map (fun d => (d, filter_date c d))

/-- Models `ElevatorLogEntries.split_by_floor`: one key per element of
`floors()`, each mapped to `filter_floor` of that key. -/
def split_by_floor (c : List ElevatorLogEntry) : List (Int × List ElevatorLogEntry) :=
  (floors c).map (fun f => (f, filter_floor c f))

/-- Models `bisect.bisect_left(self._list, x)` where the list holds
`ElevatorLogEntry` values and `x` is `None`: `ElevatorLogEntry` defines no
ordering, so the first `a[mid] < x` comparison raises `TypeError`; no
comparison happens only when the list is empty (result 0).  `none` models the
raised `TypeError`. -/
def bisect_left (c : List ElevatorLogEntry) (_x : Option ElevatorLogEntry) : Option Nat :=
  if c.isEmpty then some 0 else none

/-- Models `ElevatorLogEntries.insert`: Python evaluates
`self._list.append(entry)` first (mutating the backing list and returning
`None`), then calls `bisect_left` on the appended list with that `None` as the
key.  The result is the backing list after the call together with `true` when
a `TypeError` escapes (the exception leaves the appended, possibly unsorted,
list behind). -/
def insert (c : List ElevatorLogEntry) (e : ElevatorLogEntry) :
    List ElevatorLogEntry × Bool :=
  let appended := c ++ [e]
  match bisect_left appended none with
  | none => (appended, true)
  | some i => (appended.take i ++ e :: appended.drop i, false)

end ElevatorLogEntries

/-- Models the namedtuple `ElevatorOperationRecord(start, other, end)`; the
`end` field is called `end_` because `end` is a Lean keyword. -/
structure ElevatorOperationRecord where
  start : Option ElevatorLogEntry
  other : List ElevatorLogEntry
  end_ : Option ElevatorLogEntry
deriving DecidableEq

namespace ElevatorOperation

/-- Models `ElevatorOperation.operation_time`: -1 when either endpoint is
`None`, otherwise the signed difference of the timestamps in whole seconds
(`int((end.date - start.date).total_seconds())`, exact since timestamps are
whole seconds). -/
def operation_time (r : ElevatorOperationRecord) : Int :=
  match r.start, r.end_ with
  | some s, some e => (e.date : Int) - (s.date : Int)
  | _, _ => -1

/-- Models `ElevatorOperation.is_anamoly` (sic): true when an endpoint is
missing, the duration exceeds `60 * 10` seconds, or the duration is
negative. -/
def is_anamoly (r : ElevatorOperationRecord) : Bool :=
  if r.start.isNone || r.end_.isNone then true
  else if operation_time r > 60 * 10 then true
  else if operation_time r < 0 then true
  else false

end ElevatorOperation

open ElevatorOperation

/-- Stable insertion for the ascending integer sort used by
`statistics.median`. -/
def insertInt (e : Int) : List Int → List Int
  | [] => [e]
  | x :: xs => if x < e then x :: insertInt e xs else e :: x :: xs

/-- Models Python `sorted(data)` on integers: stable ascending sort. -/
def sortInts : List Int → List Int
  | [] => []
  | a :: rest => insertInt a (sortInts rest)

/-- Models `statistics.mean`: `none` models the `StatisticsError` raised on
empty input, otherwise the exact arithmetic mean. -/
def mean (xs : List Int) : Option Rat :=
  if xs.isEmpty then none
  else some ((xs.sum : Rat) / (xs.length : Rat))

/-- Models `statistics.median`: `none` models the `StatisticsError` raised on
empty input; otherwise sort ascending and take the middle element (odd length)
or the average of the two middle elements (even length). -/
def medianOf (xs : List Int) : Option Rat :=
  let s := sortInts xs
  let n := s.length
  if n = 0 then none
  else if n % 2 = 1 then some ((s.getD (n / 2) 0 : Int) : Rat)
  else some ((((s.getD (n / 2 - 1) 0 : Int) : Rat) + ((s.getD (n / 2) 0 : Int) : Rat)) / 2)

namespace ElevatorOperations

/-- The generator `x.operation_time() for x in self._operations if not
x.is_anamoly()` shared by `average` and `median`. -/
def durationsOf (ops : List ElevatorOperationRecord) : List Int :=
  (ops.filter (fun o => !is_anamoly o)).map operation_time

/-- Models `ElevatorOperations.average`: `statistics.mean` of the non-anomalous
durations, with the `try/except` turning the empty-input error into -1. -/
def average (ops : List ElevatorOperationRecord) : Rat :=
  match mean (durationsOf ops) with
  | some v => v
  | none => -1

/-- Models `ElevatorOperations.median`: `statistics.median` of the
non-anomalous durations, with the `try/except` turning the empty-input error
into -1. -/
def median (ops : List ElevatorOperationRecord) : Rat :=
  match medianOf (durationsOf ops) with
  | some v => v
  | none => -1

/-- The flattened partition list built inside `from_log_entries`: the values of
`split_by_date`, each split again by floor, in order (Python's
`floors = [x for _date in dates for x in _date.split_by_floor().values()]`). -/
def partitionsOf (es : List ElevatorLogEntry) : List (List ElevatorLogEntry) :=
  ((ElevatorLogEntries.split_by_date es).map Prod.snd).flatMap
    (fun d => (ElevatorLogEntries.split_by_floor d).map Prod.snd)

/-- The single linear pass of `from_log_entries` over
`[entry for x in floors for entry in x]`, carried out with the loop state
`start` / `other`; note the state is never reset at partition boundaries, only
when an operation is emitted. -/
def buildPass : List ElevatorLogEntry → Option ElevatorLogEntry →
    List ElevatorLogEntry → List ElevatorOperationRecord
  | [], _, _ => []
  | e :: rest, start, other =>
    if e.type == "button_call" then
      match start with
      | none => buildPass rest (some e) other
      | some _ => buildPass rest start (other ++ [e])
    else
      ⟨start, other, some e⟩ :: buildPass rest none []

/-- Models `ElevatorOperations.from_log_entries`: split by date, split each
date-partition by floor, then run one pass over the concatenation of all the
resulting partitions. -/
def from_log_entries (es : List ElevatorLogEntry) : List ElevatorOperationRecord :=
  buildPass (partitionsOf es).flatten none []

end ElevatorOperations

open ElevatorOperations

/-- Sortedness of a collection's backing list, ascending by timestamp. -/
def sortedByDate (l : List ElevatorLogEntry) : Prop :=
  l.Pairwise (fun a b => a.date ≤ b.date)

/-! Concrete sample data used by counterexamples and witnesses. -/

/-- A button call on floor 5 at second 100 (day 0). -/
def sampleBC5 : ElevatorLogEntry := ⟨1, 1, 5, "button_call", 100⟩

/-- A door open on floor 6 at second 200 (day 0). -/
def sampleDO6 : ElevatorLogEntry := ⟨2, 1, 6, "door_open", 200⟩

/-- A one-day log holding a floor-5 button call and a floor-6 door open. -/
def sampleLog56 : List ElevatorLogEntry := ElevatorLogEntries.init [sampleBC5, sampleDO6]

/-- An entry on floor -3. -/
def sampleNegFloor : ElevatorLogEntry := ⟨1, 1, -3, "button_call", 100⟩

/-- A door open at second 50, earlier than `sampleBC5`. -/
def sampleEarlyDO : ElevatorLogEntry := ⟨2, 1, 5, "door_open", 50⟩

/-- An operation record spanning seconds 0 to 600 exactly. -/
def sampleOp600 : ElevatorOperationRecord :=
  ⟨some ⟨1, 1, 5, "button_call", 0⟩, [], some ⟨2, 1, 5, "door_open", 600⟩⟩

/-- An operation record with duration `d` (start at second 0, end at `d`). -/
def sampleOpOf (d : Nat) : ElevatorOperationRecord :=
  ⟨some ⟨1, 1, 5, "button_call", 0⟩, [], some ⟨2, 1, 5, "door_open", d⟩⟩

/-- An anomalous operation record: a door open with no pending start. -/
def sampleOpNoStart : ElevatorOperationRecord :=
  ⟨none, [], some ⟨2, 1, 5, "door_open", 50⟩⟩

/-! Helper lemmas about the stable sorts. -/

theorem aux_insertByDate_perm (e : ElevatorLogEntry) (l : List ElevatorLogEntry) :
    List.Perm (insertByDate e l) (e :: l) := by
  induction l with
  | nil => simp [insertByDate]
  | cons x xs ih =>
    simp only [insertByDate]
    split
    · exact (ih.cons x).trans (List.Perm.swap e x xs)
    · exact List.Perm.refl _

theorem aux_sortByDate_perm (l : List ElevatorLogEntry) :
    List.Perm (sortByDate l) l := by
  induction l with
  | nil => exact List.Perm.refl _
  | cons a rest ih =>
    exact (aux_insertByDate_perm a (sortByDate rest)).trans (ih.cons a)

theorem aux_insertByDate_of_le (e : ElevatorLogEntry) (l : List ElevatorLogEntry)
    (h : ∀ x ∈ l, e.date ≤ x.date) : insertByDate e l = e :: l := by
  cases l with
  | nil => rfl
  | cons x xs =>
    simp only [insertByDate]
    rw [if_neg]
    exact Nat.not_lt.mpr (h x (List.mem_cons_self x xs))

theorem aux_sortByDate_of_sorted {l : List ElevatorLogEntry}
    (h : l.Pairwise (fun a b => a.date ≤ b.date)) : sortByDate l = l := by
  induction l with
  | nil => rfl
  | cons a rest ih =>
    rcases List.pairwise_cons.mp h with ⟨ha, hrest⟩
    simpa [sortByDate, ih hrest] using aux_insertByDate_of_le a rest ha

theorem aux_insertInt_perm (e : Int) (l : List Int) :
    List.Perm (insertInt e l) (e :: l) := by
  induction l with
  | nil => simp [insertInt]
  | cons x xs ih =>
    simp only [insertInt]
    split
    · exact (ih.cons x).trans (List.Perm.swap e x xs)
    · exact List.Perm.refl _

theorem aux_sortInts_perm (l : List Int) : List.Perm (sortInts l) l := by
  induction l with
  | nil => exact List.Perm.refl _
  | cons a rest ih =>
    exact (aux_insertInt_perm a (sortInts rest)).trans (ih.cons a)

theorem aux_insertInt_pairwise {e : Int} {l : List Int}
    (h : l.Pairwise (fun a b => a ≤ b)) : (insertInt e l).Pairwise (fun a b => a ≤ b) := by
  induction l with
  | nil => simp [insertInt]
  | cons x xs ih =>
    rcases List.pairwise_cons.mp h with ⟨hx, hxs⟩
    simp only [insertInt]
    split
    · rename_i hlt
      refine List.pairwise_cons.mpr ⟨?_, ih hxs⟩
      intro b hb
      rcases List.mem_cons.mp ((aux_insertInt_perm e xs).mem_iff.mp hb) with h1 | h1
      · subst h1; omega
      · exact hx b h1
    · rename_i hnlt
      refine List.pairwise_cons.mpr ⟨?_, h⟩
      intro b hb
      rcases List.mem_cons.mp hb with h1 | h1
      · subst h1; omega
      · exact le_trans (by omega) (hx b h1)

theorem aux_sortInts_pairwise (l : List Int) :
    (sortInts l).Pairwise (fun a b => a ≤ b) := by
  induction l with
  | nil => simp [sortInts]
  | cons a rest ih => exact aux_insertInt_pairwise ih

/-! Helper lemmas about the filters. -/

theorem aux_mem_filter_date {c : List ElevatorLogEntry} {d : Nat} {e : ElevatorLogEntry} :
    e ∈ ElevatorLogEntries.filter_date c d ↔ e ∈ c ∧ dateDay e = d := by
  unfold ElevatorLogEntries.filter_date ElevatorLogEntries.init
  rw [(aux_sortByDate_perm _).mem_iff]
  simp [List.mem_filter]

theorem aux_count_filter_date (c : List ElevatorLogEntry) (d : Nat) (e : ElevatorLogEntry) :
    (ElevatorLogEntries.filter_date c d).count e = if dateDay e = d then c.count e else 0 := by
  unfold ElevatorLogEntries.filter_date ElevatorLogEntries.init
  rw [(aux_sortByDate_perm _).count_eq]
  by_cases h : dateDay e = d
  · rw [if_pos h, List.count_filter]
    simp [h]
  · rw [if_neg h, List.count_eq_zero]
    intro hmem
    exact h (by simpa using (List.mem_filter.mp hmem).2)

theorem aux_mem_filter_floor {c : List ElevatorLogEntry} {f : Int} {e : ElevatorLogEntry} :
    e ∈ ElevatorLogEntries.filter_floor c f ↔ e ∈ c ∧ |e.floor| = f := by
  unfold ElevatorLogEntries.filter_floor ElevatorLogEntries.init
  rw [(aux_sortByDate_perm _).mem_iff]
  simp [List.mem_filter]

theorem aux_count_filter_floor (c : List ElevatorLogEntry) (f : Int) (e : ElevatorLogEntry) :
    (ElevatorLogEntries.filter_floor c f).count e = if |e.floor| = f then c.count e else 0 := by
  unfold ElevatorLogEntries.filter_floor ElevatorLogEntries.init
  rw [(aux_sortByDate_perm _).count_eq]
  by_cases h : |e.floor| = f
  · rw [if_pos h, List.count_filter]
    simp [h]
  · rw [if_neg h, List.count_eq_zero]
    intro hmem
    exact h (by simpa using (List.mem_filter.mp hmem).2)

theorem aux_filter_floor_neg (c : List ElevatorLogEntry) {f : Int} (hf : f < 0) :
    ElevatorLogEntries.filter_floor c f = [] := by
  unfold ElevatorLogEntries.filter_floor ElevatorLogEntries.init
  have hnil : c.filter (fun x => |x.floor| == f) = [] := by
    rw [List.filter_eq_nil_iff]
    intro a _
    simp only [beq_iff_eq]
    have := abs_nonneg a.floor
    omega
  rw [hnil]
  rfl

/-! Helper lemmas for counting over duplicate-free key lists. -/

theorem aux_sum_map_ite {β : Type} [DecidableEq β] (ks : List β) (k0 : β) (n : Nat)
    (hnd : ks.Nodup) :
    ((ks.map fun k => if k0 = k then n else 0).sum) = if k0 ∈ ks then n else 0 := by
  induction ks with
  | nil => simp
  | cons k ks ih =>
    rcases List.nodup_cons.mp hnd with ⟨hk, hnd'⟩
    simp only [List.map_cons, List.sum_cons, ih hnd']
    by_cases h : k0 = k
    · subst h
      simp [hk]
    · simp [h, List.mem_cons]

theorem aux_countP_nodup (ks : List Nat) (k0 : Nat) (hnd : ks.Nodup) :
    ks.countP (fun k => k0 == k) = if k0 ∈ ks then 1 else 0 := by
  induction ks with
  | nil => simp
  | cons k ks ih =>
    rcases List.nodup_cons.mp hnd with ⟨hk, hnd'⟩
    by_cases h : k0 = k
    · subst h
      rw [List.countP_cons_of_pos _ _ (by simp)]
      simp [ih hnd', hk]
    · rw [List.countP_cons_of_neg _ _ (by simp [h])]
      simp [ih hnd', List.mem_cons, h]

theorem aux_countP_nodup_int (ks : List Int) (k0 : Int) (hnd : ks.Nodup) :
    ks.countP (fun k => k0 == k) = if k0 ∈ ks then 1 else 0 := by
  induction ks with
  | nil => simp
  | cons k ks ih =>
    rcases List.nodup_cons.mp hnd with ⟨hk, hnd'⟩
    by_cases h : k0 = k
    · subst h
      rw [List.countP_cons_of_pos _ _ (by simp)]
      simp [ih hnd', hk]
    · rw [List.countP_cons_of_neg _ _ (by simp [h])]
      simp [ih hnd', List.mem_cons, h]

theorem aux_dates_nodup (c : List ElevatorLogEntry) :
    (ElevatorLogEntries.dates c).Nodup :=
  List.nodup_dedup _

theorem aux_floors_nodup (c : List ElevatorLogEntry) :
    (ElevatorLogEntries.floors c).Nodup :=
  List.nodup_dedup _

/-- C5: `is_anamoly` returns true exactly when the start is absent, the end is
absent, the duration exceeds 600 seconds, or the duration is negative; in
particular it returns false when both endpoints are present and the duration is
exactly 600. -/
theorem claim5_anomaly_rule (r : ElevatorOperationRecord) :
    (is_anamoly r = true ↔
      (r.start = none ∨ r.end_ = none ∨ operation_time r > 600 ∨ operation_time r < 0))
    ∧ (∀ s e, r.start = some s → r.end_ = some e → operation_time r = 600 →
        is_anamoly r = false) := by
  constructor
  · rcases r with ⟨st, ot, en⟩
    cases st <;> cases en <;> simp [is_anamoly, operation_time]
  · intro s e hs he hd
    simp [is_anamoly, hs, he, hd]

/-- C5 witness: an operation spanning exactly 600 seconds with both endpoints
present is not anomalous. -/
theorem claim5_witness : is_anamoly sampleOp600 = false :=
  (claim5_anomaly_rule sampleOp600).2 ⟨1, 1, 5, "button_call", 0⟩
    ⟨2, 1, 5, "door_open", 600⟩ rfl rfl (by decide)

/-- C6: `operation_time` is the signed difference of the end and start
timestamps in whole seconds when both are present (independent of the extra
calls stored in `other`), and the sentinel -1 when either endpoint is
absent. -/
theorem claim6_duration (r : ElevatorOperationRecord) :
    (∀ s e, r.start = some s → r.end_ = some e →
        operation_time r = (e.date : Int) - (s.date : Int))
    ∧ ((r.start = none ∨ r.end_ = none) → operation_time r = -1)
    ∧ (∀ o, operation_time ⟨r.start, o, r.end_⟩ = operation_time r) := by
  refine ⟨?_, ?_, ?_⟩
  · intro s e hs he
    simp [operation_time, hs, he]
  · rcases r with ⟨st, ot, en⟩
    intro h
    rcases h with h | h
    · subst h
      cases en <;> simp [operation_time]
    · subst h
      cases st <;> simp [operation_time]
  · intro o
    rfl

/-- C6 witness: duration 200 - 100 = 100 for a concrete pair, sentinel -1 when
the start is absent. -/
theorem claim6_witness :
    operation_time ⟨some sampleBC5, [], some sampleDO6⟩ = 100
    ∧ operation_time sampleOpNoStart = -1 := by
  constructor
  · have h := (claim6_duration ⟨some sampleBC5, [], some sampleDO6⟩).1
      sampleBC5 sampleDO6 rfl rfl
    rw [h]
    decide
  · exact (claim6_duration sampleOpNoStart).2.1 (Or.inl rfl)

/-- C2 counterexample: for the one-entry collection on floor 5,
`filter_floor 5` returns the entry but `filter_floor (-5)` is empty, so the two
are not identical as the claim states. -/
theorem claim2_counterexample :
    ElevatorLogEntries.filter_floor [sampleBC5] 5 = [sampleBC5]
    ∧ ElevatorLogEntries.filter_floor [sampleBC5] (-5) = []
    ∧ ElevatorLogEntries.filter_floor [sampleBC5] 5 ≠
        ElevatorLogEntries.filter_floor [sampleBC5] (-5) := by
  decide

/-- C2 amended: `filter_floor f` keeps exactly the entries whose `abs(floor)`
equals `f` itself, not `abs(f)` (multiplicities preserved); consequently for
negative `f` the result is always empty, and `filter_floor f` and
`filter_floor (-f)` generally differ. -/
theorem claim2_amended (c : List ElevatorLogEntry) (f : Int) :
    (∀ e, (ElevatorLogEntries.filter_floor c f).count e
        = if |e.floor| = f then c.count e else 0)
    ∧ (∀ e, e ∈ ElevatorLogEntries.filter_floor c f ↔ e ∈ c ∧ |e.floor| = f)
    ∧ (f < 0 → ElevatorLogEntries.filter_floor c f = []) :=
  ⟨aux_count_filter_floor c f, fun _ => aux_mem_filter_floor,
    fun hf => aux_filter_floor_neg c hf⟩

/-- C2 witness: the amended statement evaluated on the one-entry floor-5
collection at f = -5 and f = 5. -/
theorem claim2_witness :
    ElevatorLogEntries.filter_floor [sampleBC5] (-5) = []
    ∧ (sampleBC5 ∈ ElevatorLogEntries.filter_floor [sampleBC5] 5 ↔
        sampleBC5 ∈ [sampleBC5] ∧ |sampleBC5.floor| = 5) :=
  ⟨(claim2_amended [sampleBC5] (-5)).2.2 (by decide),
    (claim2_amended [sampleBC5] 5).2.1 sampleBC5⟩

/-- C3 counterexample: for a collection holding one entry on floor -3,
`floors()` returns the raw value -3 rather than the magnitude 3, and the entry
appears in none of the `split_by_floor` value collections (its partition,
keyed -3, is empty because no absolute value equals -3). -/
theorem claim3_counterexample :
    ElevatorLogEntries.floors [sampleNegFloor] = [-3]
    ∧ (3 : Int) ∉ ElevatorLogEntries.floors [sampleNegFloor]
    ∧ sampleNegFloor ∈ [sampleNegFloor]
    ∧ (ElevatorLogEntries.split_by_floor [sampleNegFloor]).countP
        (fun kv => decide (sampleNegFloor ∈ kv.2)) = 0 := by
  decide

/-- C3 amended: when every entry's floor is nonnegative, `floors()` does return
the distinct `abs(floor)` magnitudes, and `split_by_floor` keyed on them
partitions the collection exactly: every entry lies in exactly one value
collection and multiplicities are preserved. -/
theorem claim3_amended (c : List ElevatorLogEntry) (hpos : ∀ e ∈ c, 0 ≤ e.floor) :
    ElevatorLogEntries.floors c = (c.map (fun e => |e.floor|)).dedup
    ∧ (∀ e ∈ c, (ElevatorLogEntries.split_by_floor c).countP
        (fun kv => decide (e ∈ kv.2)) = 1)
    ∧ (∀ e, ((ElevatorLogEntries.split_by_floor c).map (fun kv => kv.2.count e)).sum
        = c.count e) := by
  refine ⟨?_, ?_, ?_⟩
  · unfold ElevatorLogEntries.floors
    rw [List.map_congr_left (fun e he => (abs_of_nonneg (hpos e he)).symm)]
  · intro e he
    unfold ElevatorLogEntries.split_by_floor
    rw [List.countP_map]
    have hcg : (ElevatorLogEntries.floors c).countP
        (fun f => decide (e ∈ ElevatorLogEntries.filter_floor c f))
        = (ElevatorLogEntries.floors c).countP (fun f => |e.floor| == f) := by
      refine List.countP_congr ?_
      intro f _
      simp only [decide_eq_true_eq, beq_iff_eq, aux_mem_filter_floor]
      constructor
      · exact fun h => h.2
      · exact fun h => ⟨he, h⟩
    rw [show ((fun kv : Int × List ElevatorLogEntry => decide (e ∈ kv.2)) ∘
        (fun f => (f, ElevatorLogEntries.filter_floor c f)))
        = fun f => decide (e ∈ ElevatorLogEntries.filter_floor c f) from rfl]
    rw [hcg, aux_countP_nodup_int _ _ (aux_floors_nodup c)]
    rw [if_pos]
    rw [abs_of_nonneg (hpos e he)]
    exact List.mem_dedup.mpr (List.mem_map_of_mem _ he)
  · intro e
    unfold ElevatorLogEntries.split_by_floor
    rw [List.map_map]
    rw [show ((fun kv : Int × List ElevatorLogEntry => kv.2.count e) ∘
        (fun f => (f, ElevatorLogEntries.filter_floor c f)))
        = fun f => (ElevatorLogEntries.filter_floor c f).count e from rfl]
    rw [List.map_congr_left (fun f _ => aux_count_filter_floor c f e)]
    rw [aux_sum_map_ite (ElevatorLogEntries.floors c) _ _ (aux_floors_nodup c)]
    by_cases he : e ∈ c
    · rw [if_pos]
      rw [abs_of_nonneg (hpos e he)]
      exact List.mem_dedup.mpr (List.mem_map_of_mem _ he)
    · rw [List.count_eq_zero.mpr he]
      split <;> rfl

/-- C3 witness: the amended statement evaluated on the two-entry collection on
floors 5 and 6. -/
theorem claim3_witness :
    ElevatorLogEntries.floors sampleLog56
      = (sampleLog56.map (fun e => |e.floor|)).dedup
    ∧ (ElevatorLogEntries.split_by_floor sampleLog56).countP
        (fun kv => decide (sampleBC5 ∈ kv.2)) = 1 :=
  ⟨(claim3_amended sampleLog56 (by decide)).1,
    (claim3_amended sampleLog56 (by decide)).2.1 sampleBC5 (by decide)⟩

/-- C9: `split_by_date` has one key per distinct calendar date, each value is
`filter_date` of its key, and the values partition the collection exactly:
every entry lies in exactly one value collection and multiplicities are
preserved. -/
theorem claim9_split_by_date (c : List ElevatorLogEntry) :
    ((ElevatorLogEntries.split_by_date c).map Prod.fst = ElevatorLogEntries.dates c)
    ∧ (∀ kv ∈ ElevatorLogEntries.split_by_date c,
        kv.2 = ElevatorLogEntries.filter_date c kv.1)
    ∧ (∀ e ∈ c, (ElevatorLogEntries.split_by_date c).countP
        (fun kv => decide (e ∈ kv.2)) = 1)
    ∧ (∀ e, ((ElevatorLogEntries.split_by_date c).map (fun kv => kv.2.count e)).sum
        = c.count e) := by
  refine ⟨?_, ?_, ?_, ?_⟩
  · unfold ElevatorLogEntries.split_by_date
    rw [List.map_map]
    exact List.map_id _
  · intro kv hkv
    unfold ElevatorLogEntries.split_by_date at hkv
    rcases List.mem_map.mp hkv with ⟨d, _, rfl⟩
    rfl
  · intro e he
    unfold ElevatorLogEntries.split_by_date
    rw [List.countP_map]
    have hcg : (ElevatorLogEntries.dates c).countP
        (fun d => decide (e ∈ ElevatorLogEntries.filter_date c d))
        = (ElevatorLogEntries.dates c).countP (fun d => dateDay e == d) := by
      refine List.countP_congr ?_
      intro d _
      simp only [decide_eq_true_eq, beq_iff_eq, aux_mem_filter_date]
      constructor
      · exact fun h => h.2
      · exact fun h => ⟨he, h⟩
    rw [show ((fun kv : Nat × List ElevatorLogEntry => decide (e ∈ kv.2)) ∘
        (fun d => (d, ElevatorLogEntries.filter_date c d)))
        = fun d => decide (e ∈ ElevatorLogEntries.filter_date c d) from rfl]
    rw [hcg, aux_countP_nodup _ _ (aux_dates_nodup c)]
    rw [if_pos]
    exact List.mem_dedup.mpr (List.mem_map_of_mem _ he)
  · intro e
    unfold ElevatorLogEntries.split_by_date
    rw [List.map_map]
    rw [show ((fun kv : Nat × List ElevatorLogEntry => kv.2.count e) ∘
        (fun d => (d, ElevatorLogEntries.filter_date c d)))
        = fun d => (ElevatorLogEntries.filter_date c d).count e from rfl]
    rw [List.map_congr_left (fun d _ => aux_count_filter_date c d e)]
    rw [aux_sum_map_ite (ElevatorLogEntries.dates c) _ _ (aux_dates_nodup c)]
    by_cases he : e ∈ c
    · rw [if_pos]
      exact List.mem_dedup.mpr (List.mem_map_of_mem _ he)
    · rw [List.count_eq_zero.mpr he]
      split <;> rfl

/-- C7: average and median are computed over exactly the non-anomalous
durations; empty or all-anomalous inputs give the sentinel -1 (never an
error); on nonempty filtered input, the average is the arithmetic mean and the
median is the middle of a sorted re-arrangement of the same filtered
durations. -/
theorem claim7_statistics (ops : List ElevatorOperationRecord) :
    ((∀ op ∈ ops, is_anamoly op = true) → average ops = -1 ∧ median ops = -1)
    ∧ (durationsOf ops = [] → average ops = -1 ∧ median ops = -1)
    ∧ (durationsOf ops ≠ [] →
        average ops = ((durationsOf ops).sum : Rat) / ((durationsOf ops).length : Rat)
        ∧ ∃ s, List.Perm s (durationsOf ops) ∧ s.Pairwise (fun a b => a ≤ b)
            ∧ median ops = (if s.length % 2 = 1 then ((s.getD (s.length / 2) 0 : Int) : Rat)
                else (((s.getD (s.length / 2 - 1) 0 : Int) : Rat)
                  + ((s.getD (s.length / 2) 0 : Int) : Rat)) / 2)) := by
  have hempty : durationsOf ops = [] → average ops = -1 ∧ median ops = -1 := by
    intro hd
    constructor
    · simp [average, mean, hd]
    · simp [median, medianOf, hd, sortInts]
  refine ⟨?_, hempty, ?_⟩
  · intro hall
    refine hempty ?_
    unfold durationsOf
    rw [List.filter_eq_nil_iff.mpr (fun a ha => by simp [hall a ha])]
    rfl
  · intro hd
    have hne : (durationsOf ops).isEmpty = false := by
      simpa [List.isEmpty_iff] using hd
    constructor
    · simp [average, mean, hne]
    · refine ⟨sortInts (durationsOf ops), aux_sortInts_perm _, aux_sortInts_pairwise _, ?_⟩
      have hn0 : ¬ (sortInts (durationsOf ops)).length = 0 := by
        rw [(aux_sortInts_perm _).length_eq]
        simpa [List.length_eq_zero] using hd
      by_cases hodd : (sortInts (durationsOf ops)).length % 2 = 1 <;>
        simp [median, medianOf, hn0, hodd]

/-- C7 witness: an all-anomalous set gives -1 for both statistics, and the
durations 30, 45, 60 give their arithmetic mean as average. -/
theorem claim7_witness :
    (average [sampleOpNoStart] = -1 ∧ median [sampleOpNoStart] = -1)
    ∧ average [sampleOpOf 30, sampleOpOf 45, sampleOpOf 60]
        = ((durationsOf [sampleOpOf 30, sampleOpOf 45, sampleOpOf 60]).sum : Rat)
          / ((durationsOf [sampleOpOf 30, sampleOpOf 45, sampleOpOf 60]).length : Rat) :=
  ⟨(claim7_statistics [sampleOpNoStart]).1 (by decide),
    ((claim7_statistics [sampleOpOf 30, sampleOpOf 45, sampleOpOf 60]).2.2 (by decide)).1⟩

theorem aux_buildPass_length (l : List ElevatorLogEntry) (s : Option ElevatorLogEntry)
    (o : List ElevatorLogEntry) :
    (buildPass l s o).length = l.countP (fun e => !(e.type == "button_call")) := by
  induction l generalizing s o with
  | nil => simp [buildPass]
  | cons e rest ih =>
    by_cases h : e.type = "button_call"
    · have hb : (e.type == "button_call") = true := by simp [h]
      rw [List.countP_cons_of_neg _ _ (by simp [hb])]
      simp only [buildPass, hb, if_true]
      cases s with
      | none => exact ih _ _
      | some x => exact ih _ _
    · have hb : (e.type == "button_call") = false := by simp [h]
      rw [List.countP_cons_of_pos _ _ (by simp [hb])]
      simp only [buildPass, hb, Bool.false_eq_true, if_false, List.length_cons]
      rw [ih _ _]

theorem aux_buildPass_types (l : List ElevatorLogEntry) (s : Option ElevatorLogEntry)
    (o : List ElevatorLogEntry)
    (hl : ∀ e ∈ l, e.type = "button_call" ∨ e.type = "door_open")
    (hs : ∀ x, s = some x → x.type = "button_call")
    (ho : ∀ x ∈ o, x.type = "button_call") :
    ∀ op ∈ buildPass l s o,
      (∃ e, op.end_ = some e ∧ e.type = "door_open")
      ∧ (∀ x, op.start = some x → x.type = "button_call")
      ∧ (∀ x ∈ op.other, x.type = "button_call") := by
  induction l generalizing s o with
  | nil =>
    intro op hop
    simp [buildPass] at hop
  | cons e rest ih =>
    intro op hop
    have hlrest : ∀ x ∈ rest, x.type = "button_call" ∨ x.type = "door_open" :=
      fun x hx => hl x (List.mem_cons_of_mem e hx)
    by_cases h : e.type = "button_call"
    · have hb : (e.type == "button_call") = true := by simp [h]
      simp only [buildPass, hb, if_true] at hop
      cases s with
      | none =>
        refine ih _ _ hlrest ?_ ho op hop
        intro x hx
        cases hx
        exact h
      | some y =>
        refine ih _ _ hlrest hs ?_ op hop
        intro x hx
        rcases List.mem_append.mp hx with h1 | h1
        · exact ho x h1
        · rcases List.mem_singleton.mp h1 with rfl
          exact h
    · have hb : (e.type == "button_call") = false := by simp [h]
      simp only [buildPass, hb, Bool.false_eq_true, if_false, List.mem_cons] at hop
      rcases hop with rfl | hop
      · refine ⟨⟨e, rfl, ?_⟩, hs, ho⟩
        rcases hl e (List.mem_cons_self e rest) with h1 | h1
        · exact absurd h1 h
        · exact h1
      · refine ih _ _ hlrest ?_ ?_ op hop
        · intro x hx
          cases hx
        · intro x hx
          cases hx

theorem aux_mem_partitionsOf {es : List ElevatorLogEntry} {x : ElevatorLogEntry}
    (hx : x ∈ (partitionsOf es).flatten) : x ∈ es := by
  rcases List.mem_flatten.mp hx with ⟨p, hp, hxp⟩
  unfold partitionsOf at hp
  rcases List.mem_flatMap.mp hp with ⟨d, hd, hpd⟩
  rcases List.mem_map.mp hpd with ⟨kvf, hkvf, hkvf2⟩
  rcases List.mem_map.mp hd with ⟨kvd, hkvd, hkvd2⟩
  unfold ElevatorLogEntries.split_by_date at hkvd
  rcases List.mem_map.mp hkvd with ⟨dd, _, rfl⟩
  unfold ElevatorLogEntries.split_by_floor at hkvf
  rcases List.mem_map.mp hkvf with ⟨ff, _, rfl⟩
  simp only at hkvd2 hkvf2
  subst hkvd2
  subst hkvf2
  exact (aux_mem_filter_date.mp (aux_mem_filter_floor.mp hxp).1).1

/-- C1 counterexample: in the one-day log with a floor-5 button call and a
floor-6 door open, the button call's own (date, floor) partition contains no
door open at all, yet the builder emits an operation pairing that button call
with the door open from the other floor's partition — the pending start is not
dropped at partition end. -/
theorem claim1_counterexample :
    (ElevatorLogEntries.filter_floor sampleLog56 5).all
        (fun e => e.type == "button_call") = true
    ∧ sampleBC5 ∈ ElevatorLogEntries.filter_floor sampleLog56 5
    ∧ from_log_entries sampleLog56 = [⟨some sampleBC5, [], some sampleDO6⟩] := by
  decide

/-- C1 amended: the reconstruction is a single pass over the concatenation of
all (date, floor) partitions that never resets the pending start at a
partition boundary: exactly one Operation is emitted per non-ButtonCall entry
of the concatenation (so a pending ButtonCall at the end of the whole
concatenation is dropped, but a ButtonCall unresolved within its own partition
can pair with a DoorOpen of a later partition). -/
theorem claim1_amended (es : List ElevatorLogEntry) :
    (from_log_entries es).length
      = (partitionsOf es).flatten.countP (fun e => !(e.type == "button_call")) :=
  aux_buildPass_length _ _ _

/-- C4: the code contradicts the sortedness invariant (and its own docstring
"insert adds the entry to the container ordered"): inserting an entry with an
earlier timestamp appends it unsorted to the end of the backing list and the
call raises TypeError. -/
theorem claim4_insert_defect :
    (ElevatorLogEntries.insert [sampleBC5] sampleEarlyDO).2 = true
    ∧ (ElevatorLogEntries.insert [sampleBC5] sampleEarlyDO).1
        = [sampleBC5, sampleEarlyDO]
    ∧ ¬ sortedByDate (ElevatorLogEntries.insert [sampleBC5] sampleEarlyDO).1 := by
  refine ⟨by decide, by decide, ?_⟩
  unfold sortedByDate
  decide

/-- C10: for well-typed input, every builder-produced operation has a present
DoorOpen end, a ButtonCall start whenever the start is present, only
ButtonCall extra calls, and can be anomalous only because of an absent start,
a negative duration, or a duration over 600 seconds. -/
theorem claim10_builder_invariants (es : List ElevatorLogEntry)
    (hwf : ∀ e ∈ es, e.type = "button_call" ∨ e.type = "door_open") :
    ∀ op ∈ from_log_entries es,
      (∃ e, op.end_ = some e ∧ e.type = "door_open")
      ∧ (∀ x, op.start = some x → x.type = "button_call")
      ∧ (∀ x ∈ op.other, x.type = "button_call")
      ∧ (is_anamoly op = true →
          op.start = none ∨ operation_time op < 0 ∨ operation_time op > 600) := by
  intro op hop
  have hflat : ∀ e ∈ (partitionsOf es).flatten,
      e.type = "button_call" ∨ e.type = "door_open" :=
    fun e he => hwf e (aux_mem_partitionsOf he)
  have h := aux_buildPass_types _ none [] hflat
    (by intro x hx; cases hx) (by intro x hx; cases hx) op hop
  refine ⟨h.1, h.2.1, h.2.2, ?_⟩
  rcases h.1 with ⟨e, hend, -⟩
  intro hanom
  rcases hst : op.start with _ | s
  · exact Or.inl rfl
  · right
    by_cases hlt : operation_time op < 0
    · exact Or.inl hlt
    · by_cases hgt : operation_time op > 600
      · exact Or.inr hgt
      · exfalso
        simp [is_anamoly, hst, hend, hgt, hlt] at hanom

/-- C10 witness: the invariants evaluated on the concrete builder output of
the sample log. -/
theorem claim10_witness :
    (∃ e, (⟨some sampleBC5, [], some sampleDO6⟩ : ElevatorOperationRecord).end_
        = some e ∧ e.type = "door_open")
    ∧ (∀ x, (⟨some sampleBC5, [], some sampleDO6⟩ : ElevatorOperationRecord).start
        = some x → x.type = "button_call")
    ∧ (∀ x ∈ (⟨some sampleBC5, [], some sampleDO6⟩ : ElevatorOperationRecord).other,
        x.type = "button_call")
    ∧ (is_anamoly ⟨some sampleBC5, [], some sampleDO6⟩ = true →
        (⟨some sampleBC5, [], some sampleDO6⟩ : ElevatorOperationRecord).start = none
        ∨ operation_time ⟨some sampleBC5, [], some sampleDO6⟩ < 0
        ∨ operation_time ⟨some sampleBC5, [], some sampleDO6⟩ > 600) :=
  claim10_builder_invariants sampleLog56 (by decide)
    ⟨some sampleBC5, [], some sampleDO6⟩ (by decide)

/-- C8: for a single-day input on one nonnegative floor consisting of
ButtonCall at T1, ButtonCall at T2 and DoorOpen at T3 with T1 < T2 < T3, the
builder produces exactly one operation whose start is the T1 entry, whose
extra calls are exactly the T2 entry, whose end is the T3 entry, and whose
duration is T3 - T1 seconds. -/
theorem claim8_builder_example (i1 i2 i3 d1 d2 d3 t1 t2 t3 : Nat) (f : Int)
    (hf : 0 ≤ f) (h12 : t1 < t2) (h23 : t2 < t3)
    (hday : t1 / 86400 = t3 / 86400) :
    from_log_entries (ElevatorLogEntries.init
        [⟨i1, d1, f, "button_call", t1⟩, ⟨i2, d2, f, "button_call", t2⟩,
          ⟨i3, d3, f, "door_open", t3⟩])
      = [⟨some ⟨i1, d1, f, "button_call", t1⟩, [⟨i2, d2, f, "button_call", t2⟩],
          some ⟨i3, d3, f, "door_open", t3⟩⟩]
    ∧ operation_time ⟨some ⟨i1, d1, f, "button_call", t1⟩,
        [⟨i2, d2, f, "button_call", t2⟩], some ⟨i3, d3, f, "door_open", t3⟩⟩
      = (t3 : Int) - (t1 : Int) := by
  have hd2 : t2 / 86400 = t1 / 86400 := by omega
  have hd3 : t3 / 86400 = t1 / 86400 := hday.symm
  have habs : |f| = f := abs_of_nonneg hf
  have hpair : ([⟨i1, d1, f, "button_call", t1⟩, ⟨i2, d2, f, "button_call", t2⟩,
      ⟨i3, d3, f, "door_open", t3⟩] : List ElevatorLogEntry).Pairwise
      (fun a b => a.date ≤ b.date) := by
    refine List.Pairwise.cons ?_ (List.Pairwise.cons ?_
      (List.Pairwise.cons ?_ List.Pairwise.nil))
    · intro b hb
      rcases List.mem_cons.mp hb with rfl | hb
      · show t1 ≤ t2
        omega
      rcases List.mem_cons.mp hb with rfl | hb
      · show t1 ≤ t3
        omega
      · cases hb
    · intro b hb
      rcases List.mem_cons.mp hb with rfl | hb
      · show t2 ≤ t3
        omega
      · cases hb
    · intro b hb
      cases hb
  have hinit : ElevatorLogEntries.init
      [⟨i1, d1, f, "button_call", t1⟩, ⟨i2, d2, f, "button_call", t2⟩,
        ⟨i3, d3, f, "door_open", t3⟩]
      = [⟨i1, d1, f, "button_call", t1⟩, ⟨i2, d2, f, "button_call", t2⟩,
        ⟨i3, d3, f, "door_open", t3⟩] := aux_sortByDate_of_sorted hpair
  rw [hinit]
  have hdates : ElevatorLogEntries.dates
      [⟨i1, d1, f, "button_call", t1⟩, ⟨i2, d2, f, "button_call", t2⟩,
        ⟨i3, d3, f, "door_open", t3⟩] = [t1 / 86400] := by
    show ([t1 / 86400, t2 / 86400, t3 / 86400] : List Nat).dedup = [t1 / 86400]
    rw [hd2, hd3]
    rw [List.dedup_cons_of_mem (by simp), List.dedup_cons_of_mem (by simp),
      List.dedup_cons_of_not_mem (by simp), List.dedup_nil]
  have hfd : ElevatorLogEntries.filter_date
      [⟨i1, d1, f, "button_call", t1⟩, ⟨i2, d2, f, "button_call", t2⟩,
        ⟨i3, d3, f, "door_open", t3⟩] (t1 / 86400)
      = [⟨i1, d1, f, "button_call", t1⟩, ⟨i2, d2, f, "button_call", t2⟩,
        ⟨i3, d3, f, "door_open", t3⟩] := by
    unfold ElevatorLogEntries.filter_date
    rw [List.filter_eq_self.mpr ?_]
    · exact hinit
    · intro a ha
      rcases List.mem_cons.mp ha with rfl | ha
      · simp [dateDay]
      rcases List.mem_cons.mp ha with rfl | ha
      · simp [dateDay, hd2]
      rcases List.mem_cons.mp ha with rfl | ha
      · simp [dateDay, hd3]
      · cases ha
  have hfloors : ElevatorLogEntries.floors
      [⟨i1, d1, f, "button_call", t1⟩, ⟨i2, d2, f, "button_call", t2⟩,
        ⟨i3, d3, f, "door_open", t3⟩] = [f] := by
    show ([f, f, f] : List Int).dedup = [f]
    rw [List.dedup_cons_of_mem (by simp), List.dedup_cons_of_mem (by simp),
      List.dedup_cons_of_not_mem (by simp), List.dedup_nil]
  have hff : ElevatorLogEntries.filter_floor
      [⟨i1, d1, f, "button_call", t1⟩, ⟨i2, d2, f, "button_call", t2⟩,
        ⟨i3, d3, f, "door_open", t3⟩] f
      = [⟨i1, d1, f, "button_call", t1⟩, ⟨i2, d2, f, "button_call", t2⟩,
        ⟨i3, d3, f, "door_open", t3⟩] := by
    unfold ElevatorLogEntries.filter_floor
    rw [List.filter_eq_self.mpr ?_]
    · exact hinit
    · intro a ha
      rcases List.mem_cons.mp ha with rfl | ha
      · simp [habs]
      rcases List.mem_cons.mp ha with rfl | ha
      · simp [habs]
      rcases List.mem_cons.mp ha with rfl | ha
      · simp [habs]
      · cases ha
  have hsbd : ElevatorLogEntries.split_by_date
      [⟨i1, d1, f, "button_call", t1⟩, ⟨i2, d2, f, "button_call", t2⟩,
        ⟨i3, d3, f, "door_open", t3⟩]
      = [(t1 / 86400, [⟨i1, d1, f, "button_call", t1⟩,
          ⟨i2, d2, f, "button_call", t2⟩, ⟨i3, d3, f, "door_open", t3⟩])] := by
    unfold ElevatorLogEntries.split_by_date
    rw [hdates]
    simp only [List.map_cons, List.map_nil]
    rw [hfd]
  have hsbf : ElevatorLogEntries.split_by_floor
      [⟨i1, d1, f, "button_call", t1⟩, ⟨i2, d2, f, "button_call", t2⟩,
        ⟨i3, d3, f, "door_open", t3⟩]
      = [(f, [⟨i1, d1, f, "button_call", t1⟩,
          ⟨i2, d2, f, "button_call", t2⟩, ⟨i3, d3, f, "door_open", t3⟩])] := by
    unfold ElevatorLogEntries.split_by_floor
    rw [hfloors]
    simp only [List.map_cons, List.map_nil]
    rw [hff]
  have hparts : partitionsOf
      [⟨i1, d1, f, "button_call", t1⟩, ⟨i2, d2, f, "button_call", t2⟩,
        ⟨i3, d3, f, "door_open", t3⟩]
      = [[⟨i1, d1, f, "button_call", t1⟩, ⟨i2, d2, f, "button_call", t2⟩,
          ⟨i3, d3, f, "door_open", t3⟩]] := by
    unfold partitionsOf
    rw [hsbd]
    simp only [List.map_cons, List.map_nil, List.flatMap_cons, List.flatMap_nil]
    rw [hsbf]
    simp
  constructor
  · unfold from_log_entries
    rw [hparts]
    have hdo : (("door_open" : String) == "button_call") = false := by decide
    simp [buildPass, hdo]
  · simp [operation_time]

/-- C8 witness: the builder example at floor 5 with timestamps 10 < 20 < 30,
giving duration 20 seconds. -/
theorem claim8_witness :
    from_log_entries (ElevatorLogEntries.init
        [⟨1, 1, 5, "button_call", 10⟩, ⟨2, 2, 5, "button_call", 20⟩,
          ⟨3, 3, 5, "door_open", 30⟩])
      = [⟨some ⟨1, 1, 5, "button_call", 10⟩, [⟨2, 2, 5, "button_call", 20⟩],
          some ⟨3, 3, 5, "door_open", 30⟩⟩]
    ∧ operation_time ⟨some ⟨1, 1, 5, "button_call", 10⟩,
        [⟨2, 2, 5, "button_call", 20⟩], some ⟨3, 3, 5, "door_open", 30⟩⟩
      = 20 := by
  have h := claim8_builder_example 1 2 3 1 2 3 10 20 30 5 (by decide) (by decide)
    (by decide) (by decide)
  exact ⟨h.1, by rw [h.2]; decide⟩

/-- C9 witness: the partition property evaluated on the two-entry sample
collection. -/
theorem claim9_witness :
    ((0, ElevatorLogEntries.filter_date sampleLog56 0)
        ∈ ElevatorLogEntries.split_by_date sampleLog56 →
      (0, ElevatorLogEntries.filter_date sampleLog56 0).2
        = ElevatorLogEntries.filter_date sampleLog56
            (0, ElevatorLogEntries.filter_date sampleLog56 0).1)
    ∧ (ElevatorLogEntries.split_by_date sampleLog56).countP
        (fun kv => decide (sampleBC5 ∈ kv.2)) = 1 :=
  ⟨(claim9_split_by_date sampleLog56).2.1 _,
    (claim9_split_by_date sampleLog56).2.2.1 sampleBC5 (by decide)⟩

end Bridgetech
